import Mathlib

set_option maxRecDepth 1000000

/-!
# Verification of the rlox bytecode virtual machine

A shallow embedding of `src/vm.rs` and `src/main.rs`: a stack-based
bytecode VM with a chunk (instruction byte stream + constant pool +
line table), a fixed-capacity operand stack, an interpreter loop and a
disassembler.

Machine values are Rust `f64`; we embed IEEE-754 binary64 arithmetic
exactly, representing each finite double by its exact rational value
and each arithmetic operation as the exact rational operation followed
by round-to-nearest-even at 53 bits of precision.  This model covers
the normal finite range (no overflow to infinity, no subnormals, no
NaN), which is the range every value in this development inhabits.
Rust panics (out-of-bounds indexing, integer underflow) are modelled
as `Option.none` / a dedicated `panic` outcome.
-/

namespace RLox

/-!
### Executable rational arithmetic

The rational operations below are written with `mkRat` / `Rat.divInt` and
the `num`/`den` projections (rather than `ℚ`'s `+ * /` instances, whose
definitions are `@[irreducible]`) so that every definition in this file
evaluates by kernel reduction; the `q*_eq` bridge lemmas prove each one
equal to the corresponding field operation of `ℚ`. -/

/-- The integer `n` as a rational. -/
def qofInt (n : Int) : ℚ := mkRat n 1

/-- Executable addition on `ℚ`. -/
def qadd (a b : ℚ) : ℚ :=
  mkRat (a.num * (b.den : Int) + b.num * (a.den : Int)) (a.den * b.den)

/-- Executable negation on `ℚ`. -/
def qneg (a : ℚ) : ℚ := mkRat (-a.num) a.den

/-- Executable subtraction on `ℚ`. -/
def qsub (a b : ℚ) : ℚ := qadd a (qneg b)

/-- Executable multiplication on `ℚ`. -/
def qmul (a b : ℚ) : ℚ := mkRat (a.num * b.num) (a.den * b.den)

/-- Executable division on `ℚ` (division by zero yields zero, as in `ℚ`). -/
def qdiv (a b : ℚ) : ℚ := Rat.divInt (a.num * (b.den : Int)) ((a.den : Int) * b.num)

/-- Number of bits of a natural number, with explicit fuel so that the
recursion is structural; `bitLenAux f n` is correct whenever `n < 2 ^ f`. -/
def bitLenAux : Nat → Nat → Nat
  | 0, _ => 0
  | f + 1, n => if n = 0 then 0 else bitLenAux f (n / 2) + 1

/-- Number of binary digits of `n` (so `⌊log₂ n⌋ = bitLen n - 1` for `n ≥ 1`).
The fuel `300` covers every integer below `2 ^ 300`, far beyond any numerator
or denominator arising in this development. -/
def bitLen (n : Nat) : Nat := bitLenAux 300 n

/-- The power `2 ^ e` as a rational, for an integer exponent. -/
def pow2 (e : Int) : ℚ :=
  if 0 ≤ e then mkRat (2 ^ e.toNat) 1 else mkRat 1 (2 ^ (-e).toNat)

/-- The power `10 ^ e` as a rational, for an integer exponent. -/
def pow10 (e : Int) : ℚ :=
  if 0 ≤ e then mkRat (10 ^ e.toNat) 1 else mkRat 1 (10 ^ (-e).toNat)

/-- Floor of a rational as an integer (executable). -/
def qfloor (q : ℚ) : Int := Int.fdiv q.num (q.den : Int)

/-- Round a rational to the nearest integer, ties to even
(the IEEE-754 default rounding).  The fractional part `r` satisfies
`0 ≤ r < 1`; `r < 1/2` is `2 * r.num < r.den` since `r.den > 0`. -/
def rne (x : ℚ) : Int :=
  let f := qfloor x
  let r := qsub x (qofInt f)
  if 2 * r.num < (r.den : Int) then f
  else if (r.den : Int) < 2 * r.num then f + 1
  else if f % 2 = 0 then f else f + 1

/-- Computes `⌊log₂ q⌋` for a positive rational `q`. -/
def ilog2q (q : ℚ) : Int :=
  let c : Int := ((bitLen q.num.natAbs : Int) - 1) - ((bitLen q.den : Int) - 1)
  if Rat.blt q (pow2 c) then c - 1 else c

/-- Round a positive rational to the nearest binary64 value
(53 significant bits, ties to even). -/
def roundPos (q : ℚ) : ℚ :=
  let e := ilog2q q - 52
  qmul (qofInt (rne (qdiv q (pow2 e)))) (pow2 e)

/-- Round a rational to the nearest binary64 value: the exact value of the
`f64` nearest to `q` (normal finite range). -/
def roundQ (q : ℚ) : ℚ :=
  if q.num = 0 then 0 else if q.num < 0 then qneg (roundPos (qneg q)) else roundPos q

/-- The machine value type: Rust `f64`, represented by its exact rational
value (`type Value = f64`). -/
abbrev Value := ℚ

/-- Binary64 addition: exact sum, rounded. -/
def fadd (a b : Value) : Value := roundQ (qadd a b)

/-- Binary64 subtraction: exact difference, rounded. -/
def fsub (a b : Value) : Value := roundQ (qsub a b)

/-- Binary64 multiplication: exact product, rounded. -/
def fmul (a b : Value) : Value := roundQ (qmul a b)

/-- Binary64 division: exact quotient, rounded (divisor nonzero in this
development; IEEE infinities/NaN are outside the model). -/
def fdiv (a b : Value) : Value := roundQ (qdiv a b)

/-- Binary64 negation (exact in IEEE-754). -/
def fneg (a : Value) : Value := qneg a

/-- The `f64` value of a decimal literal `num / 10 ^ exp10`
(what the Rust literal denotes after parsing). -/
def flit (num : Int) (exp10 : Nat) : Value := roundQ (mkRat num (10 ^ exp10))

/-! ### Bridge lemmas: the executable operations are `ℚ`'s field operations -/

theorem qofInt_eq (n : Int) : qofInt n = (n : ℚ) := by
  simp [qofInt, Rat.mkRat_eq_div]

theorem qadd_eq (a b : ℚ) : qadd a b = a + b := by
  unfold qadd
  rw [Rat.mkRat_eq_div]
  have ha : ((a.den : ℚ)) ≠ 0 := by positivity
  have hb : ((b.den : ℚ)) ≠ 0 := by positivity
  conv_rhs => rw [← Rat.num_div_den a, ← Rat.num_div_den b]
  push_cast
  rw [div_add_div _ _ ha hb]
  ring_nf

theorem qneg_eq (a : ℚ) : qneg a = -a := by
  unfold qneg
  rw [Rat.mkRat_eq_div]
  conv_rhs => rw [← Rat.num_div_den a]
  push_cast
  rw [neg_div]

theorem qsub_eq (a b : ℚ) : qsub a b = a - b := by
  rw [qsub, qadd_eq, qneg_eq, sub_eq_add_neg]

theorem qmul_eq (a b : ℚ) : qmul a b = a * b := by
  unfold qmul
  rw [Rat.mkRat_eq_div]
  have ha : ((a.den : ℚ)) ≠ 0 := by positivity
  have hb : ((b.den : ℚ)) ≠ 0 := by positivity
  conv_rhs => rw [← Rat.num_div_den a, ← Rat.num_div_den b]
  push_cast
  rw [div_mul_div_comm]

theorem qdiv_eq (a b : ℚ) : qdiv a b = a / b := by
  unfold qdiv
  rw [Rat.divInt_eq_div]
  by_cases hb : b = 0
  · simp [hb]
  · have ha : ((a.den : ℚ)) ≠ 0 := by positivity
    have hbd : ((b.den : ℚ)) ≠ 0 := by positivity
    have hbn : ((b.num : ℚ)) ≠ 0 := by
      simpa [Rat.num_eq_zero] using hb
    conv_rhs => rw [← Rat.num_div_den a, ← Rat.num_div_den b]
    push_cast
    field_simp

/-! ## Opcodes (`const RETURN: u8 = 1;` …) -/

def RETURN : Nat := 1
def CONSTANT : Nat := 2
def NEGATE : Nat := 3
def ADD : Nat := 4
def SUBTRACT : Nat := 5
def MULTIPLY : Nat := 6
def DIVIDE : Nat := 7

/-! ## Constant pool (`struct Pool`) -/

/-- Rust `struct Pool { constants: Vec<Value> }`. -/
structure Pool where
  constants : List Value
deriving DecidableEq

/-- Rust `Pool::new`. -/
def Pool.new : Pool := ⟨[]⟩

/-- Rust `Pool::add`: pushes the constant and returns its index
(`constants.len() - 1`).  There is no capacity check. -/
def Pool.add (p : Pool) (constant : Value) : Pool × Nat :=
  (⟨p.constants ++ [constant]⟩, p.constants.length)

/-- Rust `Pool::get`: `self.constants[location]`; `none` models the Rust
index-out-of-bounds panic. -/
def Pool.get (p : Pool) (location : Nat) : Option Value :=
  p.constants.get? location

/-! ## Chunk (`struct Chunk`) -/

/-- Rust `struct Chunk { instructions: Vec<u8>, lines: Vec<Line>, pool: Pool }`.
Bytes are naturals `< 256` (the one place the source casts, `as u8`, is
modelled with an explicit `% 256`); lines are `u16` values. -/
structure Chunk where
  instructions : List Nat
  lines : List Nat
  pool : Pool
deriving DecidableEq

/-- Rust `Chunk::new`. -/
def Chunk.new : Chunk := ⟨[], [], Pool.new⟩

/-! ## Operand stack (`struct Stack`)

`values: [Value; 256]` is modelled as a total function `Nat → Value`
(all cells zero-initialised by `Stack::new`); the fixed capacity 256
appears as the bound checked by `push`.  Rust's bounds-check panic on
`values[cursor] = value` (when `cursor ≥ 256`) and the debug-mode
underflow panic in `pop` (when `cursor = 0`) are modelled as `none`. -/

structure Stack where
  values : Nat → Value
  cursor : Nat

/-- Rust `Stack::new`: 256 zero cells, cursor 0. -/
def Stack.new : Stack := ⟨fun _ => 0, 0⟩

/-- Rust `Stack::push`: `values[cursor] = value; cursor += 1`.  The array store
panics (`none`) when `cursor` is not below the capacity 256. -/
def Stack.push (s : Stack) (value : Value) : Option Stack :=
  if s.cursor < 256 then
    some ⟨fun i => if i = s.cursor then value else s.values i, s.cursor + 1⟩
  else none

/-- Rust `Stack::pop`: `cursor -= 1; values[cursor]`.  The decrement panics
(`none`) when the stack is empty. -/
def Stack.pop (s : Stack) : Option (Value × Stack) :=
  if s.cursor = 0 then none
  else some (s.values (s.cursor - 1), ⟨s.values, s.cursor - 1⟩)

/-! ## Instruction encoding (the `unmarshal` impls) -/

/-- Rust `Return::unmarshal`: push the `RETURN` opcode byte and its line. -/
def Return.unmarshal (c : Chunk) (line : Nat) : Chunk :=
  { c with instructions := c.instructions ++ [RETURN], lines := c.lines ++ [line] }

/-- Rust `Negate::unmarshal`. -/
def Negate.unmarshal (c : Chunk) (line : Nat) : Chunk :=
  { c with instructions := c.instructions ++ [NEGATE], lines := c.lines ++ [line] }

/-- Rust `Add::unmarshal`. -/
def Add.unmarshal (c : Chunk) (line : Nat) : Chunk :=
  { c with instructions := c.instructions ++ [ADD], lines := c.lines ++ [line] }

/-- Rust `Subtract::unmarshal`. -/
def Subtract.unmarshal (c : Chunk) (line : Nat) : Chunk :=
  { c with instructions := c.instructions ++ [SUBTRACT], lines := c.lines ++ [line] }

/-- Rust `Multiply::unmarshal`. -/
def Multiply.unmarshal (c : Chunk) (line : Nat) : Chunk :=
  { c with instructions := c.instructions ++ [MULTIPLY], lines := c.lines ++ [line] }

/-- Rust `Divide::unmarshal`. -/
def Divide.unmarshal (c : Chunk) (line : Nat) : Chunk :=
  { c with instructions := c.instructions ++ [DIVIDE], lines := c.lines ++ [line] }

/-- Rust `Constant::unmarshal`: push the `CONSTANT` opcode byte, then the pool
index returned by `pool.add(value)` truncated to a byte (`as u8`, the
explicit `% 256`), then the line for the opcode byte and a literal `0`
line entry for the operand byte. -/
def Constant.unmarshal (c : Chunk) (value : Value) (line : Nat) : Chunk :=
  let r := c.pool.add value
  { instructions := c.instructions ++ [CONSTANT, r.2 % 256],
    lines := c.lines ++ [line, 0],
    pool := r.1 }

/-- One encoder call (`<Inst>::new(…).write(&mut chunk, line)`): the closed
set of instruction kinds, each carrying the data its `write` takes. -/
inductive WriteOp where
  | ret : WriteOp
  | constant (value : Value) : WriteOp
  | negate : WriteOp
  | add : WriteOp
  | sub : WriteOp
  | mul : WriteOp
  | div : WriteOp
deriving DecidableEq

/-- Apply one write (an instruction's `write`, which delegates to its
`unmarshal`) with its line number. -/
def applyWrite (c : Chunk) (w : WriteOp × Nat) : Chunk :=
  match w.1 with
  | .ret => Return.unmarshal c w.2
  | .constant v => Constant.unmarshal c v w.2
  | .negate => Negate.unmarshal c w.2
  | .add => Add.unmarshal c w.2
  | .sub => Subtract.unmarshal c w.2
  | .mul => Multiply.unmarshal c w.2
  | .div => Divide.unmarshal c w.2

/-- Build a chunk from a sequence of writes, as a driver does. -/
def buildChunk (ws : List (WriteOp × Nat)) : Chunk :=
  ws.foldl applyWrite Chunk.new

/-! ## Instruction decoding (the `marshal` impls) -/

/-- Rust `Constant::marshal`: read the operand byte at `offset + 1`, fetch that
pool entry, and report 2 consumed bytes.  `none` models the two possible
index panics (operand byte past the end, operand outside the pool). -/
def Constant.marshal (c : Chunk) (offset : Nat) : Option (Nat × Value) :=
  match c.instructions.get? (offset + 1) with
  | none => none
  | some loc =>
    match c.pool.get loc with
    | none => none
    | some v => some (2, v)

/-- Rust `Return::marshal` (likewise `Negate`/`Add`/`Subtract`/`Multiply`/
`Divide`): ignores the chunk and offset, consumes 1 byte, and the decoded
instruction carries no data. -/
def Return.marshal (_c : Chunk) (_offset : Nat) : Nat × Unit := (1, ())

/-! ## Interpreter (`Chunk::interpret`) -/

/-- Rust `enum InterpretResult { Ok, CompileError, RuntimeError }`. -/
inductive InterpretResult where
  | ok : InterpretResult
  | compileError : InterpretResult
  | runtimeError : InterpretResult
deriving DecidableEq

/-- How one interpretation run ends.  `ok v` is `InterpretResult::Ok` with
`v` the value the `RETURN` branch pops and prints as the run's output;
`runtimeError` is `InterpretResult::RuntimeError`; `panic` is a Rust panic
(out-of-bounds index or integer underflow) aborting the run with no
`InterpretResult` at all. -/
inductive Outcome where
  | ok (value : Value) : Outcome
  | runtimeError : Outcome
  | panic : Outcome
deriving DecidableEq

/-- The `InterpretResult` an outcome reports (`none` for a panic, which
unwinds without returning one). -/
def Outcome.result : Outcome → Option InterpretResult
  | .ok _ => some .ok
  | .runtimeError => some .runtimeError
  | .panic => none

/-- The body of `Chunk::interpret`: the `while idx < self.instructions.len()`
loop, in state-passing form.  The chunk (held by `&self`) and the stack
(held by `&mut Stack`) are threaded through the recursion and returned
with the outcome.  `fuel` bounds the number of loop iterations so the
recursion is structural; every iteration advances `idx` by at least 1,
so `fuel = instructions.len()` (as supplied by `Chunk.interpret`) never
runs out before the loop condition fails.  The `cfg!(debug_assertions)`
trace printing is an observability side channel and is not modelled. -/
def interpretRun : Nat → Chunk → Stack → Nat → Outcome × Chunk × Stack
  | 0, c, s, _ => (.runtimeError, c, s)
  | fuel + 1, c, s, idx =>
    if idx < c.instructions.length then
      let b := c.instructions.getD idx 0
      if b = CONSTANT then
        match Constant.marshal c idx with
        | none => (.panic, c, s)
        | some (consumed, v) =>
          match s.push v with
          | none => (.panic, c, s)
          | some s' => interpretRun fuel c s' (idx + consumed)
      else if b = ADD then
        match s.pop with
        | none => (.panic, c, s)
        | some (bval, s1) =>
          match s1.pop with
          | none => (.panic, c, s1)
          | some (aval, s2) =>
            match s2.push (fadd aval bval) with
            | none => (.panic, c, s2)
            | some s3 => interpretRun fuel c s3 (idx + 1)
      else if b = SUBTRACT then
        match s.pop with
        | none => (.panic, c, s)
        | some (bval, s1) =>
          match s1.pop with
          | none => (.panic, c, s1)
          | some (aval, s2) =>
            match s2.push (fsub aval bval) with
            | none => (.panic, c, s2)
            | some s3 => interpretRun fuel c s3 (idx + 1)
      else if b = MULTIPLY then
        match s.pop with
        | none => (.panic, c, s)
        | some (bval, s1) =>
          match s1.pop with
          | none => (.panic, c, s1)
          | some (aval, s2) =>
            match s2.push (fmul aval bval) with
            | none => (.panic, c, s2)
            | some s3 => interpretRun fuel c s3 (idx + 1)
      else if b = DIVIDE then
        match s.pop with
        | none => (.panic, c, s)
        | some (bval, s1) =>
          match s1.pop with
          | none => (.panic, c, s1)
          | some (aval, s2) =>
            match s2.push (fdiv aval bval) with
            | none => (.panic, c, s2)
            | some s3 => interpretRun fuel c s3 (idx + 1)
      else if b = NEGATE then
        match s.pop with
        | none => (.panic, c, s)
        | some (v, s1) =>
          match s1.push (fneg v) with
          | none => (.panic, c, s1)
          | some s2 => interpretRun fuel c s2 (idx + 1)
      else if b = RETURN then
        match s.pop with
        | none => (.panic, c, s)
        | some (v, s1) => (.ok v, c, s1)
      else
        (.runtimeError, c, s)
    else (.runtimeError, c, s)

/-- Rust `Chunk::interpret(&self, stack: &mut Stack) -> InterpretResult`:
run the loop from offset 0. -/
def Chunk.interpret (c : Chunk) (s : Stack) : Outcome × Chunk × Stack :=
  interpretRun c.instructions.length c s 0

/-! ## VM (`struct VM`) -/

/-- Rust `struct VM { chunk: Chunk, stack: Stack }`. -/
structure VM where
  chunk : Chunk
  stack : Stack

/-- Rust `VM::new`. -/
def VM.new (chunk : Chunk) : VM := ⟨chunk, Stack.new⟩

/-- Rust `VM::interpret(&mut self)`: `self.chunk.interpret(&mut self.stack)`;
returns the outcome together with the VM as it stands afterwards. -/
def VM.interpret (vm : VM) : Outcome × VM :=
  let r := vm.chunk.interpret vm.stack
  (r.1, ⟨r.2.1, r.2.2⟩)

/-! ## Disassembler (`Chunk::disassemble`) and value formatting

Rust's `Display` for `f64` prints the shortest decimal string that parses
back to the same value (positional notation for the magnitudes occurring
here, no trailing `.0`).  `fmtVal` models this: it searches for the least
number of significant digits whose correctly-rounded decimal round-trips
through binary64 back to the value, and renders that decimal. -/

/-- Fuel-structural count of decimal digits; correct whenever `n < 10 ^ f`.
The fuel `120` in `digitLen` covers every number in this development. -/
def digitLenAux : Nat → Nat → Nat
  | 0, _ => 0
  | f + 1, n => if n = 0 then 0 else digitLenAux f (n / 10) + 1

/-- Number of decimal digits of `n` (so `⌊log₁₀ n⌋ = digitLen n - 1` for
`n ≥ 1`). -/
def digitLen (n : Nat) : Nat := digitLenAux 120 n

/-- Computes `⌊log₁₀ q⌋` for a positive rational `q`. -/
def ilog10q (q : ℚ) : Int :=
  let c : Int := ((digitLen q.num.natAbs : Int) - 1) - ((digitLen q.den : Int) - 1)
  if Rat.blt q (pow10 c) then c - 1 else c

/-- Render the decimal `n × 10 ^ m` (with `n > 0`) positionally:
append zeros when `m ≥ 0`, otherwise place the decimal point, adding a
leading `0.` and zeros when the value is below 1. -/
def renderDec (n : Nat) (m : Int) : String :=
  let ds := Nat.toDigits 10 n
  if 0 ≤ m then String.mk (ds ++ List.replicate m.toNat '0')
  else
    let p : Int := (ds.length : Int) + m
    if 0 < p then String.mk (ds.take p.toNat ++ ['.'] ++ ds.drop p.toNat)
    else String.mk (['0', '.'] ++ List.replicate (-p).toNat '0' ++ ds)

/-- Shortest round-tripping decimal for a positive binary64 value `d`:
try 1 to 17 significant digits; for each count take the correctly-rounded
decimal and keep it if parsing it back (rounding to binary64) returns `d`.
17 digits always round-trip, so the search succeeds. -/
def fmtPosVal (d : ℚ) : String :=
  let e10 := ilog10q d
  match (List.range 17).findSome? (fun i =>
      let m := e10 - (i : Int)
      let n := rne (qdiv d (pow10 m))
      if roundQ (qmul (qofInt n) (pow10 m)) = d then some (renderDec n.toNat m)
      else none) with
  | some s => s
  | none => "?"

/-- Rust `Display` for an `f64` value (`format!("{}", value)`). -/
def fmtVal (d : ℚ) : String :=
  if d.num = 0 then "0"
  else if d.num < 0 then "-" ++ fmtPosVal (qneg d)
  else fmtPosVal d

/-- Format `{:0>4}`: decimal digits left-padded with `0` to at least width 4. -/
def pad4 (n : Nat) : String :=
  let ds := Nat.toDigits 10 n
  String.mk (List.replicate (4 - ds.length) '0' ++ ds)

/-- The `disassemble` text of each zero-operand instruction, and
`format!("CONSTANT: {}", self.value)` for a decoded constant. -/
def Constant.disassemble (value : Value) : String := "CONSTANT: " ++ fmtVal value

/-- The body of `Chunk::disassemble`: the `while idx < self.instructions.len()`
loop, printing one line per instruction (collected into a list).  `none`
models the `panic!("unknown op code")` on an unrecognized byte and the
index panics inside `Constant::marshal` and `self.lines[idx]`.  As in
`interpretRun`, `fuel = instructions.len()` suffices because every
iteration advances `idx` by at least 1. -/
def disasmRun (c : Chunk) : Nat → Nat → Option (List String)
  | 0, _ => some []
  | fuel + 1, idx =>
    if idx < c.instructions.length then
      let b := c.instructions.getD idx 0
      let decoded : Option (Nat × String) :=
        if b = CONSTANT then
          match Constant.marshal c idx with
          | none => none
          | some (consumed, v) => some (consumed, Constant.disassemble v)
        else if b = ADD then some (1, "ADD")
        else if b = SUBTRACT then some (1, "SUBTRACT")
        else if b = MULTIPLY then some (1, "MULTIPLY")
        else if b = DIVIDE then some (1, "DIVIDE")
        else if b = NEGATE then some (1, "NEGATE")
        else if b = RETURN then some (1, "RETURN")
        else none
      match decoded with
      | none => none
      | some (consumed, disassembled) =>
        match c.lines.get? idx with
        | none => none
        | some line =>
          match disasmRun c fuel (idx + consumed) with
          | none => none
          | some rest =>
            some ((pad4 idx ++ " " ++ pad4 line ++ " " ++ disassembled) :: rest)
    else some []

/-- Rust `Chunk::disassemble(&self, name)`: the header line
`=== {name} chunk ===` followed by one line per instruction. -/
def Chunk.disassemble (c : Chunk) (name : String) : Option (List String) :=
  (disasmRun c c.instructions.length 0).map
    (fun ls => ("=== " ++ name ++ " chunk ===") :: ls)

/-! ## Line-table bookkeeping per write (for the line-table claims) -/

/-- The line-table entries one write appends: the write's line for the
opcode byte, and additionally the fixed entry `0` for the operand byte of
a constant-load. -/
def lineEntries (w : WriteOp × Nat) : List Nat :=
  match w.1 with
  | .constant _ => [w.2, 0]
  | _ => [w.2]

/-- The full line table a sequence of writes produces. -/
def expectedLines (ws : List (WriteOp × Nat)) : List Nat :=
  (ws.map lineEntries).flatten

/-! ## Helper lemmas about single writes and write sequences -/

theorem applyWrite_lines (c : Chunk) (w : WriteOp × Nat) :
    (applyWrite c w).lines = c.lines ++ lineEntries w := by
  obtain ⟨op, l⟩ := w
  cases op <;>
    simp [applyWrite, lineEntries, Return.unmarshal, Negate.unmarshal, Add.unmarshal,
      Subtract.unmarshal, Multiply.unmarshal, Divide.unmarshal, Constant.unmarshal]

theorem applyWrite_instructions_length (c : Chunk) (w : WriteOp × Nat) :
    (applyWrite c w).instructions.length
      = c.instructions.length + (lineEntries w).length := by
  obtain ⟨op, l⟩ := w
  cases op <;>
    simp [applyWrite, lineEntries, Return.unmarshal, Negate.unmarshal, Add.unmarshal,
      Subtract.unmarshal, Multiply.unmarshal, Divide.unmarshal, Constant.unmarshal]

theorem foldl_applyWrite_lines (ws : List (WriteOp × Nat)) :
    ∀ c : Chunk, (ws.foldl applyWrite c).lines = c.lines ++ expectedLines ws := by
  induction ws with
  | nil => intro c; simp [expectedLines]
  | cons w ws ih =>
    intro c
    simp only [List.foldl_cons, ih, applyWrite_lines, expectedLines, List.map_cons,
      List.flatten_cons, List.append_assoc]

theorem foldl_applyWrite_instructions_length (ws : List (WriteOp × Nat)) :
    ∀ c : Chunk, (ws.foldl applyWrite c).instructions.length
      = c.instructions.length + (expectedLines ws).length := by
  induction ws with
  | nil => intro c; simp [expectedLines]
  | cons w ws ih =>
    intro c
    simp only [List.foldl_cons, ih, applyWrite_instructions_length, expectedLines,
      List.map_cons, List.flatten_cons, List.length_append]
    omega

/-! ## Claims -/

/-- Claim C1, counterexample.  The claim fails on the code in both parts: the
operand byte of a `CONSTANT` written at line 7 gets line-table entry `0`,
not `7`; and two contiguous `RETURN`s written at the same line 5 produce
two line-table entries, exceeding the single line transition, so no
run-length coalescing takes place. -/
theorem get_line_claim_counterexample :
    (buildChunk [(.constant 0, 7)]).lines.get? 1 = some 0
  ∧ (0 : Nat) ≠ 7
  ∧ (buildChunk [(.ret, 5), (.ret, 5)]).lines.length = 2
  ∧ ¬((buildChunk [(.ret, 5), (.ret, 5)]).lines.length ≤ 1) := by
  decide

/-- Claim C1, amended.  For any sequence of writes the line table holds one
entry per instruction byte, in order: each write appends its line number
for its opcode byte, and a constant-load additionally appends the fixed
entry `0` for its operand byte; there is no coalescing, and the entry
count always equals `instructions.len()`. -/
theorem line_table_per_byte (ws : List (WriteOp × Nat)) :
    (buildChunk ws).lines = expectedLines ws
  ∧ (buildChunk ws).lines.length = (buildChunk ws).instructions.length := by
  constructor
  · simpa [buildChunk, Chunk.new] using foldl_applyWrite_lines ws Chunk.new
  · have h1 := foldl_applyWrite_lines ws Chunk.new
    have h2 := foldl_applyWrite_instructions_length ws Chunk.new
    simp only [buildChunk, Chunk.new] at h1 h2 ⊢
    rw [h1, h2]
    simp

/-- Claim C9.  Invariant of every write: the line table gains exactly one
entry per instruction byte, so after any sequence of writes
`lines.len() = instructions.len()`; and the entry a constant-load records
for its operand byte is the fixed value `0`, not the line passed to the
write. -/
theorem lines_len_eq_instructions_len (ws : List (WriteOp × Nat)) :
    (buildChunk ws).lines.length = (buildChunk ws).instructions.length
  ∧ ∀ (c : Chunk) (v : Value) (l : Nat),
      (Constant.unmarshal c v l).lines = c.lines ++ [l, 0] := by
  constructor
  · have h1 := foldl_applyWrite_lines ws Chunk.new
    have h2 := foldl_applyWrite_instructions_length ws Chunk.new
    simp only [buildChunk, Chunk.new] at h1 h2 ⊢
    rw [h1, h2]
    simp
  · intro c v l
    simp [Constant.unmarshal]

/-- Claim C2, counterexample.  Writing a 257th constant into a chunk whose
pool already holds 256 entries does not fail with a capacity error: the
write succeeds, the pool grows to 257 entries, and the operand byte
stored for the assigned index 256 is the wrapped value `0` (`256 as u8`),
silently aliasing pool entry 0. -/
theorem pool_capacity_claim_counterexample :
    (Constant.unmarshal (buildChunk (List.replicate 256 (WriteOp.constant 0, 1))) 1 1).pool.constants.length
      = 257
  ∧ (Constant.unmarshal (buildChunk (List.replicate 256 (WriteOp.constant 0, 1))) 1 1).instructions.get? 513
      = some 0 := by
  decide

/-- Claim C2, amended.  Writing a constant-load never fails and the pool has
no capacity limit: `Pool::add` always appends, the index assigned is the
pool length before the write, and the operand byte stored is that index
reduced modulo 256 — so the *byte* always fits in one byte, but for pools
that already hold 256 or more entries the assigned index itself exceeds
one byte and the stored operand silently wraps. -/
theorem constant_write_never_fails (c : Chunk) (v : Value) (l : Nat) :
    (Constant.unmarshal c v l).pool.constants = c.pool.constants ++ [v]
  ∧ (Constant.unmarshal c v l).instructions
      = c.instructions ++ [CONSTANT, c.pool.constants.length % 256]
  ∧ c.pool.constants.length % 256 < 256 := by
  refine ⟨rfl, rfl, Nat.mod_lt _ (by omega)⟩

/-- Claim C6.  Stack discipline: popping with cursor 0 and pushing with
cursor at the capacity 256 both surface as a fault (`none`, the Rust
panic) rather than undefined behavior or silent corruption; under the
stated preconditions push and pop succeed and keep `0 ≤ cursor ≤ 256`. -/
theorem stack_discipline (s : Stack) (v : Value) :
    (s.cursor = 0 → s.pop = none)
  ∧ (s.cursor = 256 → s.push v = none)
  ∧ (s.cursor < 256 →
      ∃ s', s.push v = some s' ∧ s'.cursor = s.cursor + 1 ∧ s'.cursor ≤ 256)
  ∧ (0 < s.cursor → s.cursor ≤ 256 →
      ∃ v' s', s.pop = some (v', s') ∧ s'.cursor = s.cursor - 1 ∧ s'.cursor < 256) := by
  refine ⟨fun h => ?_, fun h => ?_, fun h => ?_, fun h h' => ?_⟩
  · simp [Stack.pop, h]
  · simp [Stack.push, h]
  · refine ⟨⟨fun i => if i = s.cursor then v else s.values i, s.cursor + 1⟩, ?_, rfl,
      by show s.cursor + 1 ≤ 256; omega⟩
    simp [Stack.push, h]
  · refine ⟨s.values (s.cursor - 1), ⟨s.values, s.cursor - 1⟩, ?_, rfl,
      by show s.cursor - 1 < 256; omega⟩
    simp [Stack.pop, Nat.pos_iff_ne_zero.mp h]

/-- Claim C3, counterexample.  Round-trip fails once the pool holds 256
entries: writing `CONSTANT 1` into a chunk built from 256 earlier constant
writes of `0` stores the truncated operand byte `0` (for assigned index
256), so decoding at the write offset (512) yields the instruction value
`0`, not the `1` that was written. -/
theorem roundtrip_claim_counterexample :
    Constant.marshal
      (Constant.unmarshal (buildChunk (List.replicate 256 (WriteOp.constant 0, 1))) 1 1) 512
      = some (2, 0)
  ∧ (buildChunk (List.replicate 256 (WriteOp.constant 0, 1))).instructions.length = 512
  ∧ (0 : Value) ≠ 1 := by
  decide

/-- Claim C3, amended.  Round-trip holds for every chunk state whose constant
pool holds fewer than 256 entries before the write: encoding a constant
then decoding at the offset where it was written returns the same value
with consumed-byte count 2; every zero-operand opcode decodes with
consumed-byte count 1 (and carries no data, so it trivially equals the
instruction written) in every chunk state. -/
theorem marshal_roundtrip :
    (∀ (c : Chunk) (v : Value) (l : Nat), c.pool.constants.length < 256 →
      Constant.marshal (Constant.unmarshal c v l) c.instructions.length = some (2, v))
  ∧ (∀ (c : Chunk) (offset : Nat), Return.marshal c offset = (1, ())) := by
  constructor
  · intro c v l h
    simp only [Constant.marshal, Constant.unmarshal, Pool.add]
    rw [show c.instructions ++ [CONSTANT, c.pool.constants.length % 256]
        = (c.instructions ++ [CONSTANT]) ++ [c.pool.constants.length % 256] by simp,
      show c.instructions.length + 1 = (c.instructions ++ [CONSTANT]).length by simp,
      List.get?_concat_length, Nat.mod_eq_of_lt h]
    simp [Pool.get, List.get?_concat_length]
  · intro c offset
    rfl

/-- Claim C3, witness.  Writing `CONSTANT 1.2` into a fresh chunk (pool size
0 < 256) and decoding at offset 0 returns the value 1.2 with 2 bytes
consumed. -/
theorem marshal_roundtrip_witness :
    Chunk.new.pool.constants.length < 256
  ∧ Constant.marshal (Constant.unmarshal Chunk.new (flit 12 1) 100)
      Chunk.new.instructions.length = some (2, flit 12 1) :=
  ⟨by decide, marshal_roundtrip.1 Chunk.new (flit 12 1) 100 (by decide)⟩

/-- Claim C4.  Each binary opcode pops the right operand `b` first, then the
left operand `a`, and pushes `a + b`, `a − b`, `a * b`, `a / b`
(binary64) respectively, continuing the loop past the 1 byte consumed. -/
theorem binary_ops_pop_order (fuel : Nat) (c : Chunk) (s s1 s2 s3 : Stack)
    (idx : Nat) (bval aval : Value)
    (hidx : idx < c.instructions.length)
    (hp1 : s.pop = some (bval, s1)) (hp2 : s1.pop = some (aval, s2)) :
    (c.instructions.getD idx 0 = ADD → s2.push (fadd aval bval) = some s3 →
      interpretRun (fuel + 1) c s idx = interpretRun fuel c s3 (idx + 1))
  ∧ (c.instructions.getD idx 0 = SUBTRACT → s2.push (fsub aval bval) = some s3 →
      interpretRun (fuel + 1) c s idx = interpretRun fuel c s3 (idx + 1))
  ∧ (c.instructions.getD idx 0 = MULTIPLY → s2.push (fmul aval bval) = some s3 →
      interpretRun (fuel + 1) c s idx = interpretRun fuel c s3 (idx + 1))
  ∧ (c.instructions.getD idx 0 = DIVIDE → s2.push (fdiv aval bval) = some s3 →
      interpretRun (fuel + 1) c s idx = interpretRun fuel c s3 (idx + 1)) := by
  refine ⟨fun hb hpush => ?_, fun hb hpush => ?_, fun hb hpush => ?_, fun hb hpush => ?_⟩ <;>
    (simp only [interpretRun]
     rw [if_pos hidx]
     rw [hb]
     norm_num [hp1, hp2, hpush, RETURN, CONSTANT, NEGATE, ADD, SUBTRACT, MULTIPLY, DIVIDE])

/-- A stack holding 1 (bottom) then 2 (top), for the C4 witness. -/
def addStack : Stack := ⟨fun i => if i = 0 then 1 else if i = 1 then 2 else 0, 2⟩

/-- The stack `addStack` after one `ADD` step: both operands popped, `1 + 2` pushed. -/
def addStackAfter : Stack := ⟨fun i => if i = 0 then fadd 1 2 else addStack.values i, 1⟩

/-- Claim C4, witness.  A concrete `ADD` step: on the chunk `[ADD]` with a
stack holding 1 then 2, the step pops 2 (right), pops 1 (left), and
pushes `1 + 2`. -/
theorem binary_ops_pop_order_witness :
    (buildChunk [(.add, 1)]).instructions.getD 0 0 = ADD
  ∧ addStack.pop = some (2, ⟨addStack.values, 1⟩)
  ∧ (⟨addStack.values, 1⟩ : Stack).pop = some (1, ⟨addStack.values, 0⟩)
  ∧ interpretRun 1 (buildChunk [(.add, 1)]) addStack 0
    = interpretRun 0 (buildChunk [(.add, 1)]) addStackAfter 1 := by
  refine ⟨by decide, rfl, rfl, ?_⟩
  exact (binary_ops_pop_order 0 (buildChunk [(.add, 1)])
    addStack ⟨addStack.values, 1⟩ ⟨addStack.values, 0⟩ addStackAfter
    0 2 1 (by decide) rfl rfl).1 (by decide) rfl

/-- Claim C5, counterexample.  Interpretation does not always end in an Ok or
runtime-error result: the chunk holding a single `RETURN` pops the empty
stack, which panics — an abort that reports no `InterpretResult` at all,
so the run ends in neither of the two results the claim allows. -/
theorem interpret_outcomes_claim_counterexample :
    ((buildChunk [(.ret, 1)]).interpret Stack.new).1 = .panic
  ∧ Outcome.panic.result = none := by
  decide

/-- Claim C5, amended.  A run ends in exactly one of: `ok v` when a `RETURN`
executes with a non-empty stack, `v` being the value popped; a
runtime-error result when the byte decoded is not a recognized opcode or
when the stream is exhausted (loop exit) without `RETURN`; or a panic,
e.g. when `RETURN` pops an empty stack.  The runtime-error result is a
different `InterpretResult` constructor from the unused compile-error
result. -/
theorem interpret_outcomes :
    (∀ (fuel : Nat) (c : Chunk) (s : Stack) (idx : Nat),
      c.instructions.length ≤ idx → interpretRun fuel c s idx = (.runtimeError, c, s))
  ∧ (∀ (fuel : Nat) (c : Chunk) (s : Stack) (idx b : Nat),
      idx < c.instructions.length →
      c.instructions.getD idx 0 = b →
      b ∉ ([RETURN, CONSTANT, NEGATE, ADD, SUBTRACT, MULTIPLY, DIVIDE] : List Nat) →
      interpretRun (fuel + 1) c s idx = (.runtimeError, c, s))
  ∧ (∀ (fuel : Nat) (c : Chunk) (s s' : Stack) (idx : Nat) (v : Value),
      idx < c.instructions.length →
      c.instructions.getD idx 0 = RETURN → s.pop = some (v, s') →
      interpretRun (fuel + 1) c s idx = (.ok v, c, s'))
  ∧ (∀ (fuel : Nat) (c : Chunk) (s : Stack) (idx : Nat),
      idx < c.instructions.length →
      c.instructions.getD idx 0 = RETURN → s.pop = none →
      interpretRun (fuel + 1) c s idx = (.panic, c, s))
  ∧ InterpretResult.runtimeError ≠ InterpretResult.compileError
  ∧ Outcome.runtimeError.result = some InterpretResult.runtimeError := by
  refine ⟨?_, ?_, ?_, ?_, by decide, rfl⟩
  · intro fuel c s idx h
    cases fuel with
    | zero => rfl
    | succ n =>
      simp only [interpretRun]
      rw [if_neg (Nat.not_lt.mpr h)]
  · intro fuel c s idx b h hgb hb
    simp only [List.mem_cons, not_or] at hb
    obtain ⟨h1, h2, h3, h4, h5, h6, h7, -⟩ := hb
    simp only [interpretRun]
    rw [if_pos h]
    rw [hgb]
    simp [h1, h2, h3, h4, h5, h6, h7]
  · intro fuel c s s' idx v h hb hp
    simp only [interpretRun]
    rw [if_pos h]
    rw [hb]
    norm_num [hp, RETURN, CONSTANT, NEGATE, ADD, SUBTRACT, MULTIPLY, DIVIDE]
  · intro fuel c s idx h hb hp
    simp only [interpretRun]
    rw [if_pos h]
    rw [hb]
    norm_num [hp, RETURN, CONSTANT, NEGATE, ADD, SUBTRACT, MULTIPLY, DIVIDE]

/-- Claim C5, witness.  Concrete instances: past-the-end offset exits the
loop with a runtime error; an unrecognized byte (the chunk record holding
byte 99) yields a runtime error; `RETURN` with a value 5 on the stack
yields `ok 5`. -/
theorem interpret_outcomes_witness :
    interpretRun 3 Chunk.new Stack.new 0 = (.runtimeError, Chunk.new, Stack.new)
  ∧ interpretRun 1 (⟨[99], [1], Pool.new⟩ : Chunk) Stack.new 0
      = (.runtimeError, (⟨[99], [1], Pool.new⟩ : Chunk), Stack.new)
  ∧ interpretRun 1 (buildChunk [(.ret, 1)]) (⟨fun _ => 5, 1⟩ : Stack) 0
      = (.ok 5, buildChunk [(.ret, 1)], (⟨fun _ => 5, 0⟩ : Stack)) := by
  refine ⟨interpret_outcomes.1 3 Chunk.new Stack.new 0 (by decide),
    interpret_outcomes.2.1 0 _ Stack.new 0 99 (by decide) (by decide) (by decide),
    interpret_outcomes.2.2.1 0 _ _ (⟨fun _ => 5, 0⟩ : Stack) 0 5 (by decide) (by decide) ?_⟩
  simp [Stack.pop]

/-- Claim C6, witness.  The fresh stack has cursor 0, so popping it faults;
pushing onto it succeeds and moves the cursor to 1. -/
theorem stack_discipline_witness :
    Stack.new.cursor = 0
  ∧ Stack.new.pop = none
  ∧ ∃ s', Stack.new.push 1 = some s' ∧ s'.cursor = Stack.new.cursor + 1 ∧ s'.cursor ≤ 256 :=
  ⟨rfl, (stack_discipline Stack.new 1).1 rfl,
    (stack_discipline Stack.new 1).2.2.1 (by decide)⟩

/-- The program hand-assembled by `main.rs`: `CONSTANT 1.2; CONSTANT 3.4;
ADD; CONSTANT 5.6; DIVIDE; NEGATE; RETURN` (constants and operators written
at line 100, the return at line 101). -/
def mainChunk : Chunk := buildChunk
  [(.constant (flit 12 1), 100), (.constant (flit 34 1), 100), (.add, 100),
   (.constant (flit 56 1), 100), (.div, 100), (.negate, 100), (.ret, 101)]

/-- Claim C7.  Running the `main.rs` program completes with output
`-((1.2 + 3.4) / 5.6)` computed in binary64, which is exactly the `f64`
value written `-0.8214285714285714` (the shortest decimal denoting it). -/
theorem main_program_arithmetic :
    ((VM.new mainChunk).interpret).1
      = .ok (fneg (fdiv (fadd (flit 12 1) (flit 34 1)) (flit 56 1)))
  ∧ fneg (fdiv (fadd (flit 12 1) (flit 34 1)) (flit 56 1))
      = roundQ (mkRat (-8214285714285714) (10 ^ 16)) := by
  decide

/-- The chunk of the disassembly-formatting scenario: one `CONSTANT 1.2`
written at line 101 followed by `RETURN` written at line 100. -/
def c8Chunk : Chunk := buildChunk [(.constant (flit 12 1), 101), (.ret, 100)]

/-- Claim C8.  Disassembling that chunk prints the header and then exactly two
instruction lines: `0000 0101 CONSTANT: 1.2` and `0002 0100 RETURN`, each
offset and line zero-padded to four digits. -/
theorem disassemble_formatting :
    c8Chunk.disassemble "test"
      = some ["=== test chunk ===", "0000 0101 CONSTANT: 1.2", "0002 0100 RETURN"] := by
  decide

/-- The chunk component of the state `interpretRun` threads is returned
unchanged on every path of the loop. -/
theorem interpretRun_chunk_eq (fuel : Nat) :
    ∀ (c : Chunk) (s : Stack) (idx : Nat), (interpretRun fuel c s idx).2.1 = c := by
  induction fuel with
  | zero => intro c s idx; rfl
  | succ n ih =>
    intro c s idx
    simp only [interpretRun]
    repeat' split
    all_goals first | rfl | apply ih

/-- Claim C10.  Interpretation never modifies the chunk: whatever the outcome,
the VM's chunk after a run — its instruction bytes, constant pool and line
table — is exactly the chunk before the run. -/
theorem interpret_never_modifies_chunk (vm : VM) :
    (VM.interpret vm).2.chunk.instructions = vm.chunk.instructions
  ∧ (VM.interpret vm).2.chunk.pool = vm.chunk.pool
  ∧ (VM.interpret vm).2.chunk.lines = vm.chunk.lines := by
  have h : (VM.interpret vm).2.chunk = vm.chunk := by
    show (interpretRun vm.chunk.instructions.length vm.chunk vm.stack 0).2.1 = vm.chunk
    exact interpretRun_chunk_eq _ vm.chunk vm.stack 0
  exact ⟨by rw [h], by rw [h], by rw [h]⟩

end RLox
